import Mathlib

/-!
Verification development for the WhatsApp chat storage repository.

The file gives a shallow embedding of the SQLite data model and of the pure
logic of the scraping, storing and export operations found in the sources
(whatsapp_web_scraper.js, use_existing_session.js and its embedded Green API
schema, quick_august_search.js, final_august_search.js), and proves or
refutes the specification claims about them.
-/

/-! ## Data model of the scraper schema (whatsapp_web_scraper.js)

The CREATE TABLE statements at lines 62-101 declare contacts (phone UNIQUE),
chats (whatsapp_id UNIQUE, contact_id, chat_name, is_group, unread_count) and
messages (no uniqueness constraint beyond the AUTOINCREMENT primary key).
Only the columns actually written by the code are modelled; each table keeps
its own AUTOINCREMENT counter, as SQLite does.
-/

structure ContactRow where
  id : Nat
  phone : String
  name : String
deriving DecidableEq, Repr

structure ChatRow where
  id : Nat
  whatsapp_id : String
  contact_id : Nat
  chat_name : String
  is_group : Bool
  unread_count : Nat
deriving DecidableEq, Repr

structure MessageRow where
  id : Nat
  chat_id : Nat
  whatsapp_message_id : String
  sender_name : String
  sender_phone : Option String
  content : String
  message_type : String
  timestamp : Option String
  is_outgoing : Bool
deriving DecidableEq, Repr

structure DB where
  nextContactId : Nat
  nextChatId : Nat
  nextMessageId : Nat
  contacts : List ContactRow
  chats : List ChatRow
  messages : List MessageRow
deriving DecidableEq, Repr

def emptyDB : DB :=
  { nextContactId := 1, nextChatId := 1, nextMessageId := 1
    contacts := [], chats := [], messages := [] }

/-- A chat entry as produced by extractAllChats (whatsapp_web_scraper.js
lines 224-251). -/
structure ChatInfo where
  index : Nat
  name : String
  lastMessage : String
  time : String
  unreadCount : Nat
deriving DecidableEq, Repr

/-- A message object as produced by the page evaluation inside
extractChatHistory (whatsapp_web_scraper.js lines 351-358): the timestamp is
the raw displayed time text (or null when no time element was found). -/
structure ExtractedMsg where
  content : String
  timestamp : Option String
  isOutgoing : Bool
  messageType : String
  senderName : String
  senderPhone : Option String
deriving DecidableEq, Repr

/-- The whatsapp_message_id generated for the message at a given position in
the batch (whatsapp_web_scraper.js line 457): the template
interpolation of the chat name, the forEach index and Date.now(), all joined
by underscores. -/
def generatedMessageId (chatName : String) (index : Nat) (now : Nat) : String :=
  chatName ++ "_" ++ Nat.repr index ++ "_" ++ Nat.repr now

/-- One stored message row as inserted by the prepared statement in
saveChatToDatabase (columns chat_id, sender_name, sender_phone, content,
message_type, timestamp, is_outgoing, whatsapp_message_id; the id column is
the AUTOINCREMENT rowid). -/
def mkMessageRow (chatId : Nat) (chatName : String) (now : Nat)
    (rowId index : Nat) (m : ExtractedMsg) : MessageRow :=
  { id := rowId
    chat_id := chatId
    whatsapp_message_id := generatedMessageId chatName index now
    sender_name := m.senderName
    sender_phone := m.senderPhone
    content := m.content
    message_type := m.messageType
    timestamp := m.timestamp
    is_outgoing := m.isOutgoing }

/-- The batch of message rows appended by the messages.forEach loop of
saveChatToDatabase, with the forEach index counting up from 0 and the rowid
counting up from the table's next AUTOINCREMENT value. -/
def messageBatch (chatId : Nat) (chatName : String) (now : Nat) :
    Nat → Nat → List ExtractedMsg → List MessageRow
  | _, _, [] => []
  | rowId, index, m :: rest =>
      mkMessageRow chatId chatName now rowId index m ::
        messageBatch chatId chatName now (rowId + 1) (index + 1) rest

/-- Embedding of saveChatToDatabase (whatsapp_web_scraper.js lines 419-485).
The function returns at once on an empty message list; otherwise it runs
INSERT OR REPLACE on contacts (keyed by the UNIQUE phone column) and on chats
(keyed by the UNIQUE whatsapp_id column) - in SQLite the conflicting row is
deleted and the replacement row receives a fresh AUTOINCREMENT id, which the
code then reads back as this.lastID - and finally inserts one messages row
per input message through the prepared INSERT OR REPLACE statement; since the
messages table carries no uniqueness constraint, this inserts
unconditionally.  Date.now() is modelled by the clock argument now. -/
def saveChatToDatabase (chatInfo : ChatInfo) (messages : List ExtractedMsg)
    (now : Nat) (s : DB) : DB :=
  if messages.length = 0 then s
  else
    let contactId := s.nextContactId
    let contacts' :=
      s.contacts.filter (fun c => c.phone ≠ chatInfo.name) ++
        [{ id := contactId, phone := chatInfo.name, name := chatInfo.name }]
    let chatId := s.nextChatId
    let chats' :=
      s.chats.filter (fun c => c.whatsapp_id ≠ chatInfo.name) ++
        [{ id := chatId, whatsapp_id := chatInfo.name, contact_id := contactId,
           chat_name := chatInfo.name, is_group := false,
           unread_count := chatInfo.unreadCount }]
    { nextContactId := s.nextContactId + 1
      nextChatId := s.nextChatId + 1
      nextMessageId := s.nextMessageId + messages.length
      contacts := contacts'
      chats := chats'
      messages :=
        s.messages ++ messageBatch chatId chatInfo.name now s.nextMessageId 0 messages }

theorem messageBatch_length (chatId : Nat) (chatName : String) (now : Nat) :
    ∀ (rowId index : Nat) (msgs : List ExtractedMsg),
      (messageBatch chatId chatName now rowId index msgs).length = msgs.length := by
  intro rowId index msgs
  induction msgs generalizing rowId index with
  | nil => rfl
  | cons m rest ih => simp [messageBatch, ih]

def sampleChat : ChatInfo :=
  { index := 0, name := "Alice", lastMessage := "hi", time := "10:00",
    unreadCount := 0 }

def sampleMsg : ExtractedMsg :=
  { content := "hi", timestamp := some "10:00", isOutgoing := false,
    messageType := "text", senderName := "Alice", senderPhone := none }

/-- C1 counterexample: running saveChatToDatabase a second time with the same
chat and the same message list does insert additional message rows.  With one
input message, the first run stores 1 row and the second run brings the store
to 2 rows: the generated whatsapp_message_id is fresh and the messages table
has no uniqueness constraint, so the upsert degenerates to a plain insert. -/
theorem saveChatToDatabase_not_idempotent :
    ((saveChatToDatabase sampleChat [sampleMsg] 1
        (saveChatToDatabase sampleChat [sampleMsg] 0 emptyDB)).messages.length ≠
      (saveChatToDatabase sampleChat [sampleMsg] 0 emptyDB).messages.length) ∧
    (saveChatToDatabase sampleChat [sampleMsg] 0 emptyDB).messages.length = 1 ∧
    (saveChatToDatabase sampleChat [sampleMsg] 1
        (saveChatToDatabase sampleChat [sampleMsg] 0 emptyDB)).messages.length = 2 := by
  refine ⟨?_, rfl, rfl⟩
  decide

/-- C1 amended: a call of saveChatToDatabase appends exactly one new message
row per input message, so a second run with the same chat and messages adds
messages.length further rows instead of leaving the row count unchanged. -/
theorem saveChatToDatabase_messages_length (chatInfo : ChatInfo)
    (messages : List ExtractedMsg) (now : Nat) (s : DB) :
    (saveChatToDatabase chatInfo messages now s).messages.length
      = s.messages.length + messages.length := by
  by_cases h : messages.length = 0
  · simp [saveChatToDatabase, h, List.length_eq_zero.mp h]
  · simp [saveChatToDatabase, h, messageBatch_length]

/-! ## Injectivity of decimal rendering

The generated message identifiers interpolate the forEach index in decimal;
the following decoder inverts Nat.repr, giving its injectivity. -/

def decDigits (l : List Char) : Nat :=
  l.foldl (fun a c => a * 10 + (c.toNat - 48)) 0

theorem toDigitsCore_shift (b : Nat) :
    ∀ (f n : Nat) (l ds : List Char),
      Nat.toDigitsCore b f n (l ++ ds) = Nat.toDigitsCore b f n l ++ ds := by
  intro f
  induction f with
  | zero => intro n l ds; rfl
  | succ f ih =>
      intro n l ds
      simp only [Nat.toDigitsCore]
      by_cases h : n / b = 0
      · simp [h]
      · simp only [h, if_false]
        have := ih (n / b) (Nat.digitChar (n % b) :: l) ds
        simpa using this

theorem digitChar_decode : ∀ d : Nat, d < 10 → (Nat.digitChar d).toNat - 48 = d := by
  decide

theorem decDigits_toDigitsCore :
    ∀ (f n : Nat), n < 10 ^ f → decDigits (Nat.toDigitsCore 10 f n []) = n := by
  intro f
  induction f with
  | zero =>
      intro n hn
      interval_cases n
      rfl
  | succ f ih =>
      intro n hn
      simp only [Nat.toDigitsCore]
      by_cases h : n / 10 = 0
      · have hn10 : n < 10 := by omega
        have hmod : n % 10 = n := Nat.mod_eq_of_lt hn10
        simp only [h, if_true, hmod]
        show decDigits [Nat.digitChar n] = n
        have := digitChar_decode n hn10
        simp [decDigits, this]
      · simp only [h, if_false]
        have hshift :
            Nat.toDigitsCore 10 f (n / 10) [Nat.digitChar (n % 10)]
              = Nat.toDigitsCore 10 f (n / 10) [] ++ [Nat.digitChar (n % 10)] := by
          simpa using toDigitsCore_shift 10 f (n / 10) [] [Nat.digitChar (n % 10)]
        rw [hshift]
        have hdiv : n / 10 < 10 ^ f := by
          have h10 : (0 : Nat) < 10 := by norm_num
          rw [Nat.div_lt_iff_lt_mul h10]
          calc n < 10 ^ (f + 1) := hn
            _ = 10 ^ f * 10 := by ring
        have hpref := ih (n / 10) hdiv
        have hmodlt : n % 10 < 10 := Nat.mod_lt _ (by norm_num)
        unfold decDigits at hpref ⊢
        rw [List.foldl_append, hpref, List.foldl_cons, List.foldl_nil,
          digitChar_decode (n % 10) hmodlt]
        omega

theorem natRepr_injective : Function.Injective Nat.repr := by
  intro m n h
  have hd : Nat.toDigits 10 m = Nat.toDigits 10 n := congrArg String.data h
  have hm : m < 10 ^ (m + 1) :=
    lt_of_lt_of_le (Nat.lt_pow_self (by norm_num) m)
      (Nat.pow_le_pow_right (by norm_num) (Nat.le_succ m))
  have hn : n < 10 ^ (n + 1) :=
    lt_of_lt_of_le (Nat.lt_pow_self (by norm_num) n)
      (Nat.pow_le_pow_right (by norm_num) (Nat.le_succ n))
  have hm' := decDigits_toDigitsCore (m + 1) m hm
  have hn' := decDigits_toDigitsCore (n + 1) n hn
  unfold Nat.toDigits at hd
  rw [← hm', ← hn', hd]

/-! ## C2: uniqueness of the (chat, provider-message-id) pair

The messages tables declare no UNIQUE constraint on the identifier pair
(idx_messages_whatsapp_id is a plain index); uniqueness is established as an
invariant of every store reachable through saveChatToDatabase, because a
replaced chat row always receives a fresh AUTOINCREMENT id and the generated
message identifiers of one batch differ in their interpolated index. -/

theorem generatedMessageId_index_inj (chatName : String) (now : Nat) {i j : Nat}
    (h : generatedMessageId chatName i now = generatedMessageId chatName j now) :
    i = j := by
  unfold generatedMessageId at h
  have hd := congrArg String.data h
  simp only [String.data_append] at hd
  have hd1 := List.append_cancel_right hd
  have hd2 := List.append_cancel_right hd1
  have hd3 := List.append_cancel_left hd2
  exact natRepr_injective (String.toList_inj.mp hd3)

theorem messageBatch_mem {chatId : Nat} {chatName : String} {now : Nat} :
    ∀ {rowId index : Nat} {msgs : List ExtractedMsg} {r : MessageRow},
      r ∈ messageBatch chatId chatName now rowId index msgs →
      r.chat_id = chatId ∧
        ∃ k, index ≤ k ∧ r.whatsapp_message_id = generatedMessageId chatName k now := by
  intro rowId index msgs
  induction msgs generalizing rowId index with
  | nil => intro r hr; cases hr
  | cons m rest ih =>
      intro r hr
      rcases List.mem_cons.mp hr with h | h
      · subst h; exact ⟨rfl, index, Nat.le_refl _, rfl⟩
      · obtain ⟨h1, k, hk, h2⟩ := ih h
        exact ⟨h1, k, Nat.le_trans (Nat.le_succ _) hk, h2⟩

theorem messageBatch_pairwise_ids (chatId : Nat) (chatName : String) (now : Nat) :
    ∀ (rowId index : Nat) (msgs : List ExtractedMsg),
      (messageBatch chatId chatName now rowId index msgs).Pairwise
        (fun a b => a.whatsapp_message_id ≠ b.whatsapp_message_id) := by
  intro rowId index msgs
  induction msgs generalizing rowId index with
  | nil => exact List.Pairwise.nil
  | cons m rest ih =>
      refine List.Pairwise.cons ?_ (ih _ _)
      intro b hb he
      obtain ⟨-, k, hk, h2⟩ := messageBatch_mem hb
      simp only [mkMessageRow, h2] at he
      have := generatedMessageId_index_inj chatName now he
      omega

def MessageKeysUnique (s : DB) : Prop :=
  s.messages.Pairwise
    (fun a b => a.chat_id ≠ b.chat_id ∨ a.whatsapp_message_id ≠ b.whatsapp_message_id)

def MessageChatIdsBounded (s : DB) : Prop :=
  ∀ m ∈ s.messages, m.chat_id < s.nextChatId

/-- Stores reachable from the fresh database through saveChatToDatabase, the
only operation of the scraper that writes message rows. -/
inductive ReachableDB : DB → Prop
  | init : ReachableDB emptyDB
  | save (chatInfo : ChatInfo) (msgs : List ExtractedMsg) (now : Nat) (s : DB) :
      ReachableDB s → ReachableDB (saveChatToDatabase chatInfo msgs now s)

theorem save_preserves_inv {s : DB}
    (h1 : MessageKeysUnique s) (h2 : MessageChatIdsBounded s)
    (chatInfo : ChatInfo) (msgs : List ExtractedMsg) (now : Nat) :
    MessageKeysUnique (saveChatToDatabase chatInfo msgs now s) ∧
      MessageChatIdsBounded (saveChatToDatabase chatInfo msgs now s) := by
  by_cases hlen : msgs.length = 0
  · simpa [saveChatToDatabase, hlen] using ⟨h1, h2⟩
  · constructor
    · unfold MessageKeysUnique
      simp only [saveChatToDatabase, hlen, if_false]
      rw [List.pairwise_append]
      refine ⟨h1, ?_, ?_⟩
      · exact (messageBatch_pairwise_ids _ _ _ _ _ _).imp fun h => Or.inr h
      · intro a ha b hb
        have hbc := (messageBatch_mem hb).1
        have hac := h2 a ha
        left
        omega
    · intro m hm
      simp only [saveChatToDatabase, hlen, if_false, List.mem_append] at hm ⊢
      rcases hm with hm | hm
      · have := h2 m hm
        omega
      · have := (messageBatch_mem hm).1
        omega

theorem reachable_inv {s : DB} (h : ReachableDB s) :
    MessageKeysUnique s ∧ MessageChatIdsBounded s := by
  induction h with
  | init =>
      refine ⟨List.Pairwise.nil, ?_⟩
      intro m hm
      cases hm
  | save chatInfo msgs now s hs ih =>
      exact save_preserves_inv ih.1 ih.2 chatInfo msgs now

/-- C2: in every message store reachable through saveChatToDatabase, two
stored rows that agree on the chat reference and on the provider message
identifier are the same row; the (chat, provider-message-id) pair is unique.
The identifier is always present (non-null) in rows written by the code. -/
theorem message_key_determines_row {s : DB} (h : ReachableDB s) :
    ∀ m1 ∈ s.messages, ∀ m2 ∈ s.messages,
      m1.chat_id = m2.chat_id →
      m1.whatsapp_message_id = m2.whatsapp_message_id → m1 = m2 := by
  intro m1 h1 m2 h2 hc hw
  by_contra hne
  have hpw := (reachable_inv h).1
  have hsym : Symmetric
      (fun a b : MessageRow =>
        a.chat_id ≠ b.chat_id ∨ a.whatsapp_message_id ≠ b.whatsapp_message_id) :=
    fun a b hab => hab.imp Ne.symm Ne.symm
  rcases List.Pairwise.forall hsym hpw h1 h2 hne with hd | hd
  · exact hd hc
  · exact hd hw

/-- C2 witness: the uniqueness theorem applied to the concrete store obtained
by saving one message of the sample chat. -/
theorem message_key_determines_row_witness :
    mkMessageRow 1 "Alice" 0 1 0 sampleMsg = mkMessageRow 1 "Alice" 0 1 0 sampleMsg := by
  have hre : ReachableDB (saveChatToDatabase sampleChat [sampleMsg] 0 emptyDB) :=
    ReachableDB.save _ _ _ _ ReachableDB.init
  refine message_key_determines_row hre _ ?_ _ ?_ rfl rfl
  · decide
  · decide

/-! ## C3: partial failure isolation in the run loop

The per-chat loop of run (whatsapp_web_scraper.js lines 632-647) wraps the
extraction and save of each chat in try/catch: an error is logged and the
loop continues with the next chat.  The extraction outcome (which also
stands for a failing save, since both are caught by the same handler) is an
explicit parameter. -/

def processChats (extract : ChatInfo → Except String (List ExtractedMsg))
    (time : ChatInfo → Nat) : List ChatInfo → DB → DB
  | [], s => s
  | c :: rest, s =>
      let s' :=
        match extract c with
        | Except.ok msgs =>
            if msgs.length > 0 then saveChatToDatabase c msgs (time c) s else s
        | Except.error _ => s
      processChats extract time rest s'

/-- C3: a chat whose extraction or save always fails does not stop the run:
processing the whole chat list leaves exactly the state produced by
processing the list with the failing chat removed, so every other chat is
still processed and saved completely. -/
theorem processChats_isolates_failure
    (extract : ChatInfo → Except String (List ExtractedMsg))
    (time : ChatInfo → Nat) (b : ChatInfo) (e : String)
    (h : extract b = Except.error e) :
    ∀ (chats : List ChatInfo) (s : DB),
      processChats extract time chats s
        = processChats extract time (chats.filter (fun c => c ≠ b)) s := by
  intro chats
  induction chats with
  | nil => intro s; rfl
  | cons c rest ih =>
      intro s
      by_cases hc : c = b
      · subst hc
        simp only [processChats, h, List.filter_cons]
        simpa using ih s
      · simp only [processChats, List.filter_cons]
        have hdec : (decide (c ≠ b)) = true := by simpa using hc
        rw [hdec]
        simp only [if_true, processChats]
        exact ih _

def chatA : ChatInfo :=
  { index := 0, name := "A", lastMessage := "", time := "", unreadCount := 0 }

def chatB : ChatInfo :=
  { index := 1, name := "B", lastMessage := "", time := "", unreadCount := 0 }

def chatC : ChatInfo :=
  { index := 2, name := "C", lastMessage := "", time := "", unreadCount := 0 }

/-- The extraction behavior of a run in which chat B always fails while every
other chat yields one message. -/
def sampleExtract : ChatInfo → Except String (List ExtractedMsg) :=
  fun c => if c.name = "B" then Except.error "network" else Except.ok [sampleMsg]

/-- C3 witness: the isolation theorem applied to the concrete run over chats
A, B, C in which B always fails. -/
theorem processChats_isolates_failure_witness :
    processChats sampleExtract (fun _ => 0) [chatA, chatB, chatC] emptyDB
      = processChats sampleExtract (fun _ => 0)
          ([chatA, chatB, chatC].filter (fun c => c ≠ chatB)) emptyDB :=
  processChats_isolates_failure sampleExtract (fun _ => 0) chatB "network"
    (by simp [sampleExtract, chatB]) [chatA, chatB, chatC] emptyDB

/-! ## C4: extraction order and the timestamp-sorted read

The page evaluation of extractChatHistory (whatsapp_web_scraper.js lines
316-366) reads each msg-container in DOM order, takes the displayed time
text verbatim as the timestamp ("Parse time" is left as a comment in the
source), and reverses the collected list before returning it.  The stored
timestamp column therefore holds raw display strings, and a read ordered by
that column compares them as text. -/

structure DomMsg where
  isOutgoing : Bool
  timeText : Option String
  contentText : Option String
  hasMedia : Bool
deriving DecidableEq, Repr

/-- Embedding of the page evaluation of extractChatHistory: for each message
element the code takes the time text as the timestamp, the conversation text
as content (falling back to a media marker), keeps the element when it has
content or is a media message, and finally reverses the collected list.
Text fields are modelled as already trimmed. -/
def extractChatHistory (chatName userPhone : String) (dom : List DomMsg) :
    List ExtractedMsg :=
  (dom.filterMap fun d =>
    let ct : String × String :=
      match d.contentText with
      | some c => (c, "text")
      | none => if d.hasMedia then ("[Media message]", "media") else ("", "text")
    if ct.1 ≠ "" ∨ ct.2 = "media" then
      some { content := ct.1
             timestamp := d.timeText
             isOutgoing := d.isOutgoing
             messageType := ct.2
             senderName := if d.isOutgoing then "You" else chatName
             senderPhone := if d.isOutgoing then some userPhone else none }
    else none).reverse

/-- Byte-wise text comparison, the order SQLite uses for TEXT values (memcmp
on the UTF-8 encoding; on the ASCII strings involved this is the character
order). -/
def charListLe : List Char → List Char → Bool
  | [], _ => true
  | _ :: _, [] => false
  | a :: as, b :: bs => if a = b then charListLe as bs else decide (a < b)

/-- Comparison of the nullable timestamp column under ORDER BY timestamp ASC:
SQLite places NULL before any text value. -/
def tsLe : Option String → Option String → Bool
  | none, _ => true
  | some _, none => false
  | some x, some y => charListLe x.data y.data

def msgTsLe (a b : MessageRow) : Prop := tsLe a.timestamp b.timestamp = true

instance : DecidableRel msgTsLe := fun a b =>
  inferInstanceAs (Decidable (tsLe a.timestamp b.timestamp = true))

/-- A read of the messages table ordered by the timestamp column. -/
def sortMessagesByTimestamp (l : List MessageRow) : List MessageRow :=
  List.insertionSort msgTsLe l

def domEarly : DomMsg :=
  { isOutgoing := false, timeText := some "9:05", contentText := some "first",
    hasMedia := false }

def domLate : DomMsg :=
  { isOutgoing := false, timeText := some "10:00", contentText := some "second",
    hasMedia := false }

/-- C4 counterexample: for the chat whose history displays a message at 9:05
followed by one at 10:00, the rows are persisted in that chronological
extraction order, but the timestamp-sorted read does not reproduce it: as
text, 10:00 sorts before 9:05.  (The DOM list is given newest-first here so
that the reversal in extractChatHistory yields the chronological order the
claim asserts.) -/
theorem timestamp_sort_breaks_order :
    sortMessagesByTimestamp
        (saveChatToDatabase sampleChat
          (extractChatHistory "Alice" "972549990001" [domLate, domEarly]) 0
          emptyDB).messages
      ≠ (saveChatToDatabase sampleChat
          (extractChatHistory "Alice" "972549990001" [domLate, domEarly]) 0
          emptyDB).messages := by
  decide

theorem messageBatch_map_proj (chatId : Nat) (chatName : String) (now : Nat) :
    ∀ (rowId index : Nat) (msgs : List ExtractedMsg),
      (messageBatch chatId chatName now rowId index msgs).map
          (fun r => (r.content, r.timestamp))
        = msgs.map (fun m => (m.content, m.timestamp)) := by
  intro rowId index msgs
  induction msgs generalizing rowId index with
  | nil => rfl
  | cons m rest ih => simp [messageBatch, mkMessageRow, ih]

/-- C4 amended: the rows saved for a chat carry the extracted messages in
exactly the order extractChatHistory returns them (the reverse of DOM
order), and a read sorted by the timestamp column reproduces this
chronological order only under the additional assumption that the raw
displayed timestamp strings are text-monotone along it - which fails in
general, as the counterexample shows. -/
theorem save_preserves_extraction_order (chatName userPhone : String)
    (chatInfo : ChatInfo) (dom : List DomMsg) (now : Nat) (s : DB)
    (hmono :
      ((saveChatToDatabase chatInfo (extractChatHistory chatName userPhone dom)
          now s).messages).Pairwise msgTsLe) :
    ((saveChatToDatabase chatInfo (extractChatHistory chatName userPhone dom)
        now s).messages).map (fun r => (r.content, r.timestamp))
      = s.messages.map (fun r => (r.content, r.timestamp))
        ++ (extractChatHistory chatName userPhone dom).map
            (fun m => (m.content, m.timestamp)) ∧
    sortMessagesByTimestamp
        ((saveChatToDatabase chatInfo (extractChatHistory chatName userPhone dom)
            now s).messages)
      = (saveChatToDatabase chatInfo (extractChatHistory chatName userPhone dom)
          now s).messages := by
  constructor
  · by_cases h : (extractChatHistory chatName userPhone dom).length = 0
    · simp [saveChatToDatabase, h, List.length_eq_zero.mp h]
    · simp [saveChatToDatabase, h, messageBatch_map_proj]
  · exact List.Sorted.insertionSort_eq hmono

def domMonoEarly : DomMsg :=
  { isOutgoing := false, timeText := some "08:00", contentText := some "first",
    hasMedia := false }

def domMonoLate : DomMsg :=
  { isOutgoing := true, timeText := some "09:00", contentText := some "second",
    hasMedia := false }

/-- C4 witness: the amended theorem applied to a concrete chat whose two
displayed timestamps are text-monotone (08:00 then 09:00). -/
theorem save_preserves_extraction_order_witness :
    ((saveChatToDatabase sampleChat
        (extractChatHistory "Alice" "972549990001" [domMonoLate, domMonoEarly]) 0
        emptyDB).messages).map (fun r => (r.content, r.timestamp))
      = emptyDB.messages.map (fun r => (r.content, r.timestamp))
        ++ (extractChatHistory "Alice" "972549990001" [domMonoLate, domMonoEarly]).map
            (fun m => (m.content, m.timestamp)) ∧
    sortMessagesByTimestamp
        ((saveChatToDatabase sampleChat
            (extractChatHistory "Alice" "972549990001" [domMonoLate, domMonoEarly]) 0
            emptyDB).messages)
      = (saveChatToDatabase sampleChat
          (extractChatHistory "Alice" "972549990001" [domMonoLate, domMonoEarly]) 0
          emptyDB).messages :=
  save_preserves_extraction_order "Alice" "972549990001" sampleChat
    [domMonoLate, domMonoEarly] 0 emptyDB (by decide)

/-! ## C9 and C10: the August scan loops

scanChatForAugust (quick_august_search.js lines 156-302) and
quickScanForAugust (final_august_search.js lines 169-268) share the same
scroll-and-collect loop: while scrollAttempts is below maxScrollAttempts
(10 in the quick search, 8 in the final one) the current view is scanned for
August 2025 messages, entries whose (content, timestamp) pair is not yet in
the accumulator are appended, and the panel is scrolled up; the loop breaks
when the panel cannot scroll further.  The page behavior is a parameter
giving, for each pass, the matching messages in view and whether the scroll
moved. -/

structure ScanMsg where
  content : String
  timestamp : String
  isOutgoing : Bool
  messageType : String
  senderName : String
  senderPhone : Option String
deriving DecidableEq, Repr

/-- The add-unique step of the scan loops: a freshly scanned message is
appended only when no collected entry already has the same content and the
same timestamp. -/
def addAugustUnique (acc : List ScanMsg) (cur : List ScanMsg) : List ScanMsg :=
  cur.foldl
    (fun a msg =>
      if a.any (fun existing =>
          existing.content == msg.content && existing.timestamp == msg.timestamp)
      then a
      else a ++ [msg])
    acc

/-- The scroll-and-collect loop, structurally recursive on the remaining
scroll budget (maxScrollAttempts - scrollAttempts).  The second component of
the result counts the passes actually executed. -/
def scanLoop (page : Nat → List ScanMsg × Bool) :
    Nat → Nat → List ScanMsg → List ScanMsg × Nat
  | 0, _, acc => (acc, 0)
  | fuel + 1, k, acc =>
      let view := page k
      let acc' := addAugustUnique acc view.1
      if view.2 then
        let next := scanLoop page fuel (k + 1) acc'
        (next.1, next.2 + 1)
      else (acc', 1)

/-- The per-chat scan of quick_august_search.js: maxScrollAttempts = 10. -/
def scanChatForAugust (page : Nat → List ScanMsg × Bool) : List ScanMsg × Nat :=
  scanLoop page 10 0 []

/-- The per-chat scan of final_august_search.js: maxScrollAttempts = 8. -/
def quickScanForAugust (page : Nat → List ScanMsg × Bool) : List ScanMsg × Nat :=
  scanLoop page 8 0 []

/-- No two entries share both content and timestamp. -/
def KeyDistinct (l : List ScanMsg) : Prop :=
  l.Pairwise (fun a b => a.content ≠ b.content ∨ a.timestamp ≠ b.timestamp)

theorem addAugustUnique_step_key_distinct {acc : List ScanMsg} (msg : ScanMsg)
    (h : KeyDistinct acc) :
    KeyDistinct
      (if acc.any (fun existing =>
          existing.content == msg.content && existing.timestamp == msg.timestamp)
        then acc
        else acc ++ [msg]) := by
  by_cases hany : acc.any (fun existing =>
      existing.content == msg.content && existing.timestamp == msg.timestamp) = true
  · simpa [hany] using h
  · rw [if_neg hany]
    rw [KeyDistinct, List.pairwise_append]
    refine ⟨h, List.pairwise_singleton _ _, ?_⟩
    intro a ha b hb
    have hb' : b = msg := by simpa using hb
    subst hb'
    simp only [List.any_eq_true, not_exists, not_and] at hany
    by_contra hcon
    push_neg at hcon
    exact hany a ha (by simp [hcon.1, hcon.2])

theorem addAugustUnique_key_distinct {acc : List ScanMsg}
    (h : KeyDistinct acc) (cur : List ScanMsg) :
    KeyDistinct (addAugustUnique acc cur) := by
  induction cur generalizing acc with
  | nil => exact h
  | cons m rest ih =>
      have hstep := addAugustUnique_step_key_distinct m h
      simpa [addAugustUnique] using ih hstep

theorem scanLoop_key_distinct (page : Nat → List ScanMsg × Bool) :
    ∀ (fuel k : Nat) (acc : List ScanMsg),
      KeyDistinct acc → KeyDistinct (scanLoop page fuel k acc).1 := by
  intro fuel
  induction fuel with
  | zero => intro k acc h; exact h
  | succ fuel ih =>
      intro k acc h
      simp only [scanLoop]
      by_cases hs : (page k).2 = true
      · simpa [hs] using ih (k + 1) _ (addAugustUnique_key_distinct h _)
      · simpa [hs] using addAugustUnique_key_distinct h _

/-- C9: the August-2025 message list returned by a per-chat scan contains no
two entries with both equal content and equal timestamp, for every chat page
behavior and any number of scroll passes - in the quick search and in the
final search alike. -/
theorem scan_august_no_duplicate_keys (page : Nat → List ScanMsg × Bool) :
    KeyDistinct (scanChatForAugust page).1 ∧
      KeyDistinct (quickScanForAugust page).1 :=
  ⟨scanLoop_key_distinct page 10 0 [] List.Pairwise.nil,
   scanLoop_key_distinct page 8 0 [] List.Pairwise.nil⟩

theorem scanLoop_count_le (page : Nat → List ScanMsg × Bool) :
    ∀ (fuel k : Nat) (acc : List ScanMsg), (scanLoop page fuel k acc).2 ≤ fuel := by
  intro fuel
  induction fuel with
  | zero => intro k acc; exact Nat.le_refl 0
  | succ fuel ih =>
      intro k acc
      simp only [scanLoop]
      by_cases hs : (page k).2 = true
      · simpa [hs] using Nat.succ_le_succ (ih (k + 1) _)
      · simp [hs]

/-- C10: the per-chat scroll-and-collect loop always terminates within its
scroll budget: at most 10 passes in scanChatForAugust of the quick search and
at most 8 in quickScanForAugust of the final search, regardless of whether
the page keeps reporting more scrollable content. -/
theorem scan_loops_bounded (page : Nat → List ScanMsg × Bool) :
    (scanChatForAugust page).2 ≤ 10 ∧ (quickScanForAugust page).2 ≤ 8 :=
  ⟨scanLoop_count_le page 10 0 [], scanLoop_count_le page 8 0 []⟩

/-! ## C6: exactly one of contact and group reference on every chat row

The Green API schema embedded in use_existing_session.js (lines 624-640)
declares the chats table with nullable contact_id and group_id columns and a
CHECK constraint tying them to chat_type.  SQLite evaluates the CHECK on
every INSERT and UPDATE, so any operation that would leave a row with both
or neither reference is rejected.  (The scraper-side chats table of
whatsapp_web_scraper.js has no group reference column at all, so the
invariant concerns this schema.)  All atoms of the CHECK expression are
two-valued here: chat_type is NOT NULL and the null tests never yield SQL
NULL. -/

structure GChatRow where
  chat_id : Nat
  whatsapp_chat_id : String
  chat_type : String
  contact_id : Option Nat
  group_id : Option Nat
deriving DecidableEq, Repr

/-- The CHECK constraint of the chats table, transcribed from the schema:
(chat_type = 'private' AND contact_id IS NOT NULL AND group_id IS NULL) OR
(chat_type = 'group' AND group_id IS NOT NULL AND contact_id IS NULL). -/
def chatsCheck (r : GChatRow) : Prop :=
  (r.chat_type = "private" ∧ r.contact_id ≠ none ∧ r.group_id = none) ∨
    (r.chat_type = "group" ∧ r.group_id ≠ none ∧ r.contact_id = none)

instance : DecidablePred chatsCheck := fun r => by
  unfold chatsCheck
  infer_instance

/-- Exactly one of the contact reference and the group reference is set:
never both, never neither. -/
def ExactlyOneRef (r : GChatRow) : Prop :=
  (r.contact_id ≠ none ∧ r.group_id = none) ∨
    (r.group_id ≠ none ∧ r.contact_id = none)

/-- INSERT into chats: SQLite accepts the row only if it passes the CHECK
constraint and the UNIQUE constraint on whatsapp_chat_id. -/
def insertGChat (r : GChatRow) (tbl : List GChatRow) : Option (List GChatRow) :=
  if chatsCheck r ∧ ∀ c ∈ tbl, c.whatsapp_chat_id ≠ r.whatsapp_chat_id
  then some (tbl ++ [r])
  else none

/-- UPDATE of chats rows selected by a predicate: SQLite re-evaluates the
CHECK constraint on every updated row and rejects the statement otherwise. -/
def updateGChat (sel : GChatRow → Bool) (f : GChatRow → GChatRow)
    (tbl : List GChatRow) : Option (List GChatRow) :=
  if ∀ c ∈ tbl, sel c = true → chatsCheck (f c)
  then some (tbl.map fun c => if sel c then f c else c)
  else none

/-- Chats tables reachable from empty through checked inserts and updates. -/
inductive GChatsReachable : List GChatRow → Prop
  | init : GChatsReachable []
  | insert (r : GChatRow) (tbl tbl' : List GChatRow) :
      GChatsReachable tbl → insertGChat r tbl = some tbl' → GChatsReachable tbl'
  | update (sel : GChatRow → Bool) (f : GChatRow → GChatRow)
      (tbl tbl' : List GChatRow) :
      GChatsReachable tbl → updateGChat sel f tbl = some tbl' → GChatsReachable tbl'

theorem gchats_check_invariant {tbl : List GChatRow} (h : GChatsReachable tbl) :
    ∀ r ∈ tbl, chatsCheck r := by
  induction h with
  | init => intro r hr; cases hr
  | insert r tbl tbl' hre hins ih =>
      unfold insertGChat at hins
      split_ifs at hins with hcond
      · cases hins
        intro x hx
        rcases List.mem_append.mp hx with hx | hx
        · exact ih x hx
        · have : x = r := by simpa using hx
          exact this ▸ hcond.1
  | update sel f tbl tbl' hre hupd ih =>
      unfold updateGChat at hupd
      split_ifs at hupd with hcond
      · cases hupd
        intro x hx
        rcases List.mem_map.mp hx with ⟨c, hc, hfc⟩
        by_cases hsel : sel c = true
        · rw [← hfc, if_pos hsel]
          exact hcond c hc hsel
        · rw [← hfc, if_neg hsel]
          exact ih c hc

/-- C6: in every chats table reachable through the schema-checked insert and
update operations, each row has exactly one of the contact and the group
reference set, never both and never neither; a private chat carries a
contact and no group, a group chat a group and no contact. -/
theorem chats_exactly_one_ref {tbl : List GChatRow} (h : GChatsReachable tbl) :
    ∀ r ∈ tbl, ExactlyOneRef r ∧
      (r.chat_type = "private" → r.contact_id ≠ none ∧ r.group_id = none) ∧
      (r.chat_type = "group" → r.group_id ≠ none ∧ r.contact_id = none) := by
  intro r hr
  have hc := gchats_check_invariant h r hr
  rcases hc with ⟨ht, h1, h2⟩ | ⟨ht, h1, h2⟩
  · refine ⟨Or.inl ⟨h1, h2⟩, fun _ => ⟨h1, h2⟩, fun hg => ?_⟩
    rw [ht] at hg
    simp at hg
  · refine ⟨Or.inr ⟨h1, h2⟩, fun hp => ?_, fun _ => ⟨h1, h2⟩⟩
    rw [ht] at hp
    simp at hp

def samplePrivateChat : GChatRow :=
  { chat_id := 1, whatsapp_chat_id := "972501234567@c.us",
    chat_type := "private", contact_id := some 1, group_id := none }

/-- C6 witness: the invariant theorem applied to the one-row table obtained
by inserting a private chat into the empty table. -/
theorem chats_exactly_one_ref_witness :
    ExactlyOneRef samplePrivateChat ∧
      (samplePrivateChat.chat_type = "private" →
        samplePrivateChat.contact_id ≠ none ∧ samplePrivateChat.group_id = none) ∧
      (samplePrivateChat.chat_type = "group" →
        samplePrivateChat.group_id ≠ none ∧ samplePrivateChat.contact_id = none) := by
  have hins : insertGChat samplePrivateChat [] = some [samplePrivateChat] := by decide
  have hre := GChatsReachable.insert samplePrivateChat [] _ GChatsReachable.init hins
  exact chats_exactly_one_ref hre samplePrivateChat (by simp)

/-! ## C7: reply references form a DAG

The Green API messages table (use_existing_session.js embedded schema, lines
643-686) has an optional self-referential reply_to_message_id column with a
foreign key to messages(message_id).  The writer that fills it
(chat_sync_manager.py / database_manager.py) is not among the sources, so
the insert operation is modelled from the spec. -/

structure GMessageRow where
  message_id : Nat
  whatsapp_message_id : Option String
  chat_id : Nat
  message_type : String
  content : Option String
  timestamp : String
  is_outgoing : Bool
  reply_to_message_id : Option Nat
deriving DecidableEq, Repr

structure GMessages where
  nextId : Nat
  rows : List GMessageRow
deriving DecidableEq, Repr

def emptyGMessages : GMessages := { nextId := 1, rows := [] }

/-- The foreign-key condition on the optional reply reference: when set, it
must name a message already present in the store. -/
def replyRefOk (s : GMessages) (reply : Option Nat) : Prop :=
  ∀ rid, reply = some rid → ∃ m ∈ s.rows, m.message_id = rid

instance (s : GMessages) : ∀ reply : Option Nat, Decidable (replyRefOk s reply)
  | none => isTrue fun rid h => by cases h
  | some x =>
      decidable_of_iff (∃ m ∈ s.rows, m.message_id = x)
        ⟨fun h rid hr => by cases hr; exact h, fun h => h x rfl⟩

/-- Modelled from the spec: the synchronization writer (chat_sync_manager.py
and database_manager.py, which are not under src/) inserts message rows
append-only ("Message rows are append-only ... updates only touch flags"),
each row receiving the next AUTOINCREMENT message_id; the optional reply-to
reference points at an already-stored message, as the self-referential
foreign key of the schema requires; an insert whose reference matches no
stored message is rejected. -/
def insertGMessage (r : GMessageRow) (s : GMessages) : Option GMessages :=
  if replyRefOk s r.reply_to_message_id then
    some { nextId := s.nextId + 1
           rows := s.rows ++ [{ r with message_id := s.nextId }] }
  else none

/-- Message stores reachable from empty through append-only inserts. -/
inductive GMessagesReachable : GMessages → Prop
  | init : GMessagesReachable emptyGMessages
  | insert (r : GMessageRow) (s s' : GMessages) :
      GMessagesReachable s → insertGMessage r s = some s' → GMessagesReachable s'

theorem gmessages_ids_bounded {s : GMessages} (h : GMessagesReachable s) :
    ∀ m ∈ s.rows, m.message_id < s.nextId := by
  induction h with
  | init => intro m hm; cases hm
  | insert r s s' hre hins ih =>
      unfold insertGMessage at hins
      split_ifs at hins with hcond
      cases hins
      intro m hm
      rcases List.mem_append.mp hm with hm | hm
      · exact Nat.lt_trans (ih m hm) (Nat.lt_succ_self _)
      · have : m = { r with message_id := s.nextId } := by simpa using hm
        rw [this]
        exact Nat.lt_succ_self _

/-- C7: in every message store reachable through the append-only insert, a
stored message with a reply-to reference never references itself and never
references a later message: the referenced identifier belongs to an earlier
stored row (strictly smaller message_id).  Since every reply edge strictly
decreases the identifier, the reply graph is a DAG and can hold no cycle. -/
theorem reply_refs_acyclic {s : GMessages} (h : GMessagesReachable s) :
    ∀ m ∈ s.rows, ∀ rid, m.reply_to_message_id = some rid →
      rid ≠ m.message_id ∧ rid < m.message_id ∧
        ∃ m' ∈ s.rows, m'.message_id = rid := by
  induction h with
  | init => intro m hm; cases hm
  | insert r s s' hre hins ih =>
      unfold insertGMessage at hins
      split_ifs at hins with hcond
      cases hins
      intro m hm rid hrid
      rcases List.mem_append.mp hm with hm | hm
      · obtain ⟨hne, hlt, m', hm', hid⟩ := ih m hm rid hrid
        exact ⟨hne, hlt, m', List.mem_append_left _ hm', hid⟩
      · have hmr : m = { r with message_id := s.nextId } := by simpa using hm
        subst hmr
        obtain ⟨m', hm', hid⟩ := hcond rid hrid
        have hlt : rid < s.nextId := hid ▸ gmessages_ids_bounded hre m' hm'
        exact ⟨Nat.ne_of_lt hlt, hlt, m', List.mem_append_left _ hm', hid⟩

def sampleRootMsg : GMessageRow :=
  { message_id := 0, whatsapp_message_id := some "m1", chat_id := 1,
    message_type := "text", content := some "hello", timestamp := "2025-08-01",
    is_outgoing := false, reply_to_message_id := none }

def sampleReplyMsg : GMessageRow :=
  { message_id := 0, whatsapp_message_id := some "m2", chat_id := 1,
    message_type := "text", content := some "hi back", timestamp := "2025-08-02",
    is_outgoing := true, reply_to_message_id := some 1 }

def sampleGStore : GMessages :=
  { nextId := 3
    rows := [{ sampleRootMsg with message_id := 1 },
      { sampleReplyMsg with message_id := 2 }] }

/-- C7 witness: the theorem applied to the concrete store holding a root
message and a reply to it. -/
theorem reply_refs_acyclic_witness :
    (1 : Nat) ≠ 2 ∧ 1 < 2 ∧
      ∃ m' ∈ sampleGStore.rows, m'.message_id = 1 := by
  have h1 : insertGMessage sampleRootMsg emptyGMessages
      = some { nextId := 2, rows := [{ sampleRootMsg with message_id := 1 }] } := by
    decide
  have h2 : insertGMessage sampleReplyMsg
      { nextId := 2, rows := [{ sampleRootMsg with message_id := 1 }] }
      = some sampleGStore := by
    decide
  have hre := GMessagesReachable.insert sampleReplyMsg _ _
    (GMessagesReachable.insert sampleRootMsg _ _ GMessagesReachable.init h1) h2
  exact reply_refs_acyclic hre { sampleReplyMsg with message_id := 2 }
    (by decide) 1 rfl

/-! ## C8: the media download queue

The media_download_queue table (use_existing_session.js embedded schema,
lines 724-734) gives a new row the column defaults download_status 'pending'
and download_attempts 0; it carries no uniqueness constraint on message_id,
so the at-most-one-task property rests on the enqueue guard.  The Media
Manager itself (media_manager.py) is not among the sources, so its
operations are modelled from the spec. -/

structure MediaTaskRow where
  queue_id : Nat
  message_id : Nat
  media_url : String
  download_status : String
  download_attempts : Nat
deriving DecidableEq, Repr

structure MediaQueue where
  nextId : Nat
  tasks : List MediaTaskRow
deriving DecidableEq, Repr

def emptyMediaQueue : MediaQueue := { nextId := 1, tasks := [] }

/-- A freshly enqueued task row, taking the schema column defaults
download_status 'pending' and download_attempts 0. -/
def newMediaTask (nextId messageId : Nat) (mediaUrl : String) : MediaTaskRow :=
  { queue_id := nextId, message_id := messageId, media_url := mediaUrl,
    download_status := "pending", download_attempts := 0 }

/-- Modelled from the spec: enqueue(messageId, mediaUrl) "adds a MediaTask in
pending state if one does not already exist for that message". -/
def enqueue (messageId : Nat) (mediaUrl : String) (q : MediaQueue) : MediaQueue :=
  if q.tasks.any (fun t => t.message_id == messageId) then q
  else
    { nextId := q.nextId + 1
      tasks := q.tasks ++ [newMediaTask q.nextId messageId mediaUrl] }

/-- Modelled from the spec: processQueue takes a task into the downloading
state while fetching its media. -/
def startDownload (queueId : Nat) (q : MediaQueue) : MediaQueue :=
  { q with
    tasks := q.tasks.map fun t =>
      if t.queue_id == queueId then { t with download_status := "downloading" }
      else t }

/-- Modelled from the spec: a successful download marks the task completed. -/
def completeDownload (queueId : Nat) (q : MediaQueue) : MediaQueue :=
  { q with
    tasks := q.tasks.map fun t =>
      if t.queue_id == queueId then { t with download_status := "completed" }
      else t }

/-- Modelled from the spec: a download error increments the retry counter and
marks the task failed once the retry ceiling is exceeded; below the ceiling
the task stays pending for a bounded retry. -/
def failDownload (retryCeiling queueId : Nat) (q : MediaQueue) : MediaQueue :=
  { q with
    tasks := q.tasks.map fun t =>
      if t.queue_id == queueId then
        { t with
          download_attempts := t.download_attempts + 1
          download_status :=
            if t.download_attempts + 1 > retryCeiling then "failed" else "pending" }
      else t }

/-- Queues reachable from empty through the Media Manager operations. -/
inductive MediaQueueReachable : MediaQueue → Prop
  | init : MediaQueueReachable emptyMediaQueue
  | enqueue (messageId : Nat) (mediaUrl : String) (q : MediaQueue) :
      MediaQueueReachable q → MediaQueueReachable (enqueue messageId mediaUrl q)
  | start (queueId : Nat) (q : MediaQueue) :
      MediaQueueReachable q → MediaQueueReachable (startDownload queueId q)
  | complete (queueId : Nat) (q : MediaQueue) :
      MediaQueueReachable q → MediaQueueReachable (completeDownload queueId q)
  | fail (retryCeiling queueId : Nat) (q : MediaQueue) :
      MediaQueueReachable q → MediaQueueReachable (failDownload retryCeiling queueId q)

/-- The four legal task states. -/
def LegalTaskState (st : String) : Prop :=
  st = "pending" ∨ st = "downloading" ∨ st = "completed" ∨ st = "failed"

def MediaQueueInv (q : MediaQueue) : Prop :=
  q.tasks.Pairwise (fun a b => a.message_id ≠ b.message_id) ∧
    ∀ t ∈ q.tasks, LegalTaskState t.download_status

theorem mediaQueue_map_inv {q : MediaQueue} (h : MediaQueueInv q)
    (f : MediaTaskRow → MediaTaskRow)
    (hid : ∀ t, (f t).message_id = t.message_id)
    (hst : ∀ t ∈ q.tasks, LegalTaskState (f t).download_status) :
    MediaQueueInv { q with tasks := q.tasks.map f } := by
  refine ⟨?_, ?_⟩
  · refine List.Pairwise.map f ?_ h.1
    intro a b hab
    rw [hid, hid]
    exact hab
  · intro t ht
    rcases List.mem_map.mp ht with ⟨a, ha, rfl⟩
    exact hst a ha

theorem mediaQueue_inv_reachable {q : MediaQueue} (h : MediaQueueReachable q) :
    MediaQueueInv q := by
  induction h with
  | init => exact ⟨List.Pairwise.nil, fun t ht => by cases ht⟩
  | enqueue messageId mediaUrl q hre ih =>
      unfold enqueue
      by_cases hany : q.tasks.any (fun t => t.message_id == messageId) = true
      · simpa [hany] using ih
      · rw [if_neg hany]
        refine ⟨?_, ?_⟩
        · rw [List.pairwise_append]
          refine ⟨ih.1, List.pairwise_singleton _ _, ?_⟩
          intro a ha b hb
          have hb' : b = newMediaTask q.nextId messageId mediaUrl := by
            simpa using hb
          subst hb'
          simp only [List.any_eq_true, not_exists, not_and] at hany
          intro hc
          refine hany a ha ?_
          simp [newMediaTask] at hc
          simp [hc]
        · intro t ht
          rcases List.mem_append.mp ht with ht | ht
          · exact ih.2 t ht
          · have ht' : t = newMediaTask q.nextId messageId mediaUrl := by
              simpa using ht
            rw [ht']
            exact Or.inl rfl
  | start queueId q hre ih =>
      refine mediaQueue_map_inv ih _ ?_ ?_
      · intro t
        by_cases hq : (t.queue_id == queueId) = true <;> simp [hq]
      · intro t ht
        by_cases hq : (t.queue_id == queueId) = true
        · simp only [hq, if_true]
          exact Or.inr (Or.inl rfl)
        · simp only [hq, if_false]
          exact ih.2 t ht
  | complete queueId q hre ih =>
      refine mediaQueue_map_inv ih _ ?_ ?_
      · intro t
        by_cases hq : (t.queue_id == queueId) = true <;> simp [hq]
      · intro t ht
        by_cases hq : (t.queue_id == queueId) = true
        · simp only [hq, if_true]
          exact Or.inr (Or.inr (Or.inl rfl))
        · simp only [hq, if_false]
          exact ih.2 t ht
  | fail retryCeiling queueId q hre ih =>
      refine mediaQueue_map_inv ih _ ?_ ?_
      · intro t
        by_cases hq : (t.queue_id == queueId) = true <;> simp [hq]
      · intro t ht
        by_cases hq : (t.queue_id == queueId) = true
        · simp only [hq, if_true]
          by_cases hc : t.download_attempts + 1 > retryCeiling
          · right; right; right
            simp [hc]
          · left
            simp [hc]
        · simp only [hq, if_false]
          exact ih.2 t ht

/-- C8: enqueuing a media download adds a MediaTask row in the pending state
with zero download attempts exactly when no task for that message exists
(and leaves the queue untouched otherwise); in every reachable queue each
message has at most one task, and every task state is one of pending,
downloading, completed, failed. -/
theorem mediaQueue_enqueue_contract {q : MediaQueue} (h : MediaQueueReachable q)
    (messageId : Nat) (mediaUrl : String) :
    ((¬ ∃ t ∈ q.tasks, t.message_id = messageId) →
        (enqueue messageId mediaUrl q).tasks
          = q.tasks ++ [newMediaTask q.nextId messageId mediaUrl]) ∧
    ((∃ t ∈ q.tasks, t.message_id = messageId) →
        enqueue messageId mediaUrl q = q) ∧
    (∀ t1 ∈ q.tasks, ∀ t2 ∈ q.tasks, t1.message_id = t2.message_id → t1 = t2) ∧
    (∀ t ∈ q.tasks, LegalTaskState t.download_status) := by
  have hinv := mediaQueue_inv_reachable h
  refine ⟨?_, ?_, ?_, hinv.2⟩
  · intro hno
    have hany : q.tasks.any (fun t => t.message_id == messageId) = false := by
      rw [List.any_eq_false]
      intro t ht
      simp only [beq_iff_eq]
      exact fun hc => hno ⟨t, ht, hc⟩
    simp [enqueue, hany]
  · intro hyes
    obtain ⟨t, ht, hmid⟩ := hyes
    have hany : q.tasks.any (fun t => t.message_id == messageId) = true := by
      rw [List.any_eq_true]
      exact ⟨t, ht, by simp [hmid]⟩
    simp [enqueue, hany]
  · intro t1 h1 t2 h2 hmid
    by_contra hne
    have hsym : Symmetric (fun a b : MediaTaskRow => a.message_id ≠ b.message_id) :=
      fun a b hab => hab.symm
    exact absurd hmid (List.Pairwise.forall hsym hinv.1 h1 h2 hne)

/-- C8 witness: the contract applied to the queue reached by enqueuing one
task for message 7. -/
theorem mediaQueue_enqueue_contract_witness :
    ((¬ ∃ t ∈ (enqueue 7 "http://u" emptyMediaQueue).tasks, t.message_id = 7) →
        (enqueue 7 "http://u" (enqueue 7 "http://u" emptyMediaQueue)).tasks
          = (enqueue 7 "http://u" emptyMediaQueue).tasks ++
              [newMediaTask (enqueue 7 "http://u" emptyMediaQueue).nextId 7 "http://u"]) ∧
    ((∃ t ∈ (enqueue 7 "http://u" emptyMediaQueue).tasks, t.message_id = 7) →
        enqueue 7 "http://u" (enqueue 7 "http://u" emptyMediaQueue)
          = enqueue 7 "http://u" emptyMediaQueue) ∧
    (∀ t1 ∈ (enqueue 7 "http://u" emptyMediaQueue).tasks,
      ∀ t2 ∈ (enqueue 7 "http://u" emptyMediaQueue).tasks,
        t1.message_id = t2.message_id → t1 = t2) ∧
    (∀ t ∈ (enqueue 7 "http://u" emptyMediaQueue).tasks,
      LegalTaskState t.download_status) :=
  mediaQueue_enqueue_contract
    (MediaQueueReachable.enqueue 7 "http://u" emptyMediaQueue
      MediaQueueReachable.init) 7 "http://u"

/-! ## C5: exportToJSON

The export query of whatsapp_web_scraper.js (lines 531-546) joins messages
with chats and contacts, orders by (chat_name, timestamp), and the callback
folds the rows into a JSON object keyed by chat name.  First the order
relation of the ORDER BY clause and its properties. -/

theorem charListLe_total : ∀ x y : List Char,
    charListLe x y = true ∨ charListLe y x = true := by
  intro x
  induction x with
  | nil => intro y; exact Or.inl rfl
  | cons a as ih =>
      intro y
      cases y with
      | nil => exact Or.inr rfl
      | cons b bs =>
          by_cases hab : a = b
          · subst hab
            simpa [charListLe] using ih bs
          · rcases lt_or_gt_of_ne hab with h | h
            · left
              simp [charListLe, hab, h]
            · right
              simp [charListLe, Ne.symm hab, not_lt_of_gt h, h]

theorem charListLe_trans : ∀ x y z : List Char,
    charListLe x y = true → charListLe y z = true → charListLe x z = true := by
  intro x
  induction x with
  | nil => intro y z _ _; rfl
  | cons a as ih =>
      intro y z hxy hyz
      cases y with
      | nil => simp [charListLe] at hxy
      | cons b bs =>
          cases z with
          | nil => simp [charListLe] at hyz
          | cons c cs =>
              by_cases hab : a = b <;> by_cases hbc : b = c
              · subst hab; subst hbc
                simp only [charListLe, if_pos rfl] at hxy hyz ⊢
                exact ih bs cs hxy hyz
              · subst hab
                simpa [charListLe, hbc] using hyz
              · subst hbc
                simpa [charListLe, hab] using hxy
              · simp only [charListLe, if_neg hab] at hxy
                simp only [charListLe, if_neg hbc] at hyz
                have h1 : a < b := of_decide_eq_true hxy
                have h2 : b < c := of_decide_eq_true hyz
                have hac : a < c := lt_trans h1 h2
                simp [charListLe, ne_of_lt hac, hac]

theorem charListLe_antisymm : ∀ x y : List Char,
    charListLe x y = true → charListLe y x = true → x = y := by
  intro x
  induction x with
  | nil =>
      intro y _ hyx
      cases y with
      | nil => rfl
      | cons b bs => simp [charListLe] at hyx
  | cons a as ih =>
      intro y hxy hyx
      cases y with
      | nil => simp [charListLe] at hxy
      | cons b bs =>
          by_cases hab : a = b
          · subst hab
            simp only [charListLe, if_pos rfl] at hxy hyx
            rw [ih bs hxy hyx]
          · simp only [charListLe, if_neg hab] at hxy
            simp only [charListLe, if_neg (Ne.symm hab)] at hyx
            have h1 : a < b := of_decide_eq_true hxy
            have h2 : b < a := of_decide_eq_true hyx
            exact absurd h2 (not_lt_of_gt h1)

theorem tsLe_total : ∀ x y : Option String, tsLe x y = true ∨ tsLe y x = true := by
  intro x y
  cases x with
  | none => exact Or.inl rfl
  | some a =>
      cases y with
      | none => exact Or.inr rfl
      | some b => exact charListLe_total a.data b.data

theorem tsLe_trans : ∀ x y z : Option String,
    tsLe x y = true → tsLe y z = true → tsLe x z = true := by
  intro x y z hxy hyz
  cases x with
  | none => rfl
  | some a =>
      cases y with
      | none => simp [tsLe] at hxy
      | some b =>
          cases z with
          | none => simp [tsLe] at hyz
          | some c => exact charListLe_trans a.data b.data c.data hxy hyz

structure JoinRow where
  contact_name : String
  chat_name : String
  is_group : Bool
  sender_name : String
  sender_phone : Option String
  content : String
  message_type : String
  timestamp : Option String
  is_outgoing : Bool
deriving DecidableEq, Repr

/-- The ORDER BY ch.chat_name, m.timestamp ASC comparison on joined rows. -/
def rowLeB (a b : JoinRow) : Bool :=
  if a.chat_name = b.chat_name then tsLe a.timestamp b.timestamp
  else charListLe a.chat_name.data b.chat_name.data

def rowLe (a b : JoinRow) : Prop := rowLeB a b = true

instance : DecidableRel rowLe := fun a b =>
  inferInstanceAs (Decidable (rowLeB a b = true))

instance : IsTotal JoinRow rowLe where
  total a b := by
    unfold rowLe rowLeB
    by_cases h : a.chat_name = b.chat_name
    · simpa [h] using tsLe_total a.timestamp b.timestamp
    · simpa [h, Ne.symm h] using charListLe_total a.chat_name.data b.chat_name.data

instance : IsTrans JoinRow rowLe where
  trans a b c hab hbc := by
    unfold rowLe rowLeB at hab hbc ⊢
    by_cases h1 : a.chat_name = b.chat_name <;> by_cases h2 : b.chat_name = c.chat_name
    · rw [if_pos h1] at hab
      rw [if_pos h2] at hbc
      rw [if_pos (h1.trans h2)]
      exact tsLe_trans _ _ _ hab hbc
    · rw [if_neg h2] at hbc
      have hac : a.chat_name ≠ c.chat_name := h1 ▸ h2
      rw [if_neg hac, h1]
      exact hbc
    · rw [if_neg h1] at hab
      have hac : a.chat_name ≠ c.chat_name := fun hr => h1 (hr.trans h2.symm)
      rw [if_neg hac, ← h2]
      exact hab
    · rw [if_neg h1] at hab
      rw [if_neg h2] at hbc
      have hac : a.chat_name ≠ c.chat_name := by
        intro hr
        have hba := hr ▸ hbc
        have : a.chat_name.data = b.chat_name.data :=
          charListLe_antisymm _ _ hab hba
        exact h1 (String.toList_inj.mp this)
      rw [if_neg hac]
      exact charListLe_trans _ _ _ hab hbc

/-- The FROM/JOIN clause of the export query: a result row exists for a
message exactly when its chat and that chat's contact exist (INNER JOINs on
the primary-key columns, looked up with find?). -/
def joinFn (s : DB) (m : MessageRow) : Option JoinRow :=
  match s.chats.find? (fun ch => ch.id == m.chat_id) with
  | none => none
  | some ch =>
      match s.contacts.find? (fun c => c.id == ch.contact_id) with
      | none => none
      | some c =>
          some { contact_name := c.name, chat_name := ch.chat_name,
                 is_group := ch.is_group, sender_name := m.sender_name,
                 sender_phone := m.sender_phone, content := m.content,
                 message_type := m.message_type, timestamp := m.timestamp,
                 is_outgoing := m.is_outgoing }

def joinRows (s : DB) : List JoinRow := s.messages.filterMap (joinFn s)

/-- One message object of the export (sender, senderPhone, content, type,
timestamp, isOutgoing). -/
structure ExportMsg where
  sender : String
  senderPhone : Option String
  content : String
  type : String
  timestamp : Option String
  isOutgoing : Bool
deriving DecidableEq, Repr

structure ExportChat where
  contactName : String
  isGroup : Bool
  messages : List ExportMsg
deriving DecidableEq, Repr

/-- The export document: top-level export timestamp, originating user phone,
total row count, and the chats object modelled as an association list in key
insertion order. -/
structure ExportData where
  exportDate : String
  userPhone : String
  totalMessages : Nat
  chats : List (String × ExportChat)
deriving DecidableEq, Repr

def rowToExportMsg (r : JoinRow) : ExportMsg :=
  { sender := r.sender_name, senderPhone := r.sender_phone,
    content := r.content, type := r.message_type, timestamp := r.timestamp,
    isOutgoing := r.is_outgoing }

def msgToExportMsg (m : MessageRow) : ExportMsg :=
  { sender := m.sender_name, senderPhone := m.sender_phone,
    content := m.content, type := m.message_type, timestamp := m.timestamp,
    isOutgoing := m.is_outgoing }

/-- The rows.forEach body of exportToJSON: a JS object has a single binding
per key, so a row either appends its message object to the entry of its chat
name or creates that entry. -/
def addExportRow : List (String × ExportChat) → JoinRow → List (String × ExportChat)
  | [], r =>
      [(r.chat_name,
        { contactName := r.contact_name, isGroup := r.is_group,
          messages := [rowToExportMsg r] })]
  | e :: rest, r =>
      if e.1 = r.chat_name then
        (e.1, { e.2 with messages := e.2.messages ++ [rowToExportMsg r] }) :: rest
      else e :: addExportRow rest r

def sortJoinRows (l : List JoinRow) : List JoinRow := List.insertionSort rowLe l

/-- Embedding of exportToJSON (whatsapp_web_scraper.js lines 527-590): the
query joins messages with chats and contacts, orders by
(chat_name, timestamp ASC), and the callback builds the export object with
the fixed user phone of the scraper and the current date. -/
def exportToJSON (exportDate : String) (s : DB) : ExportData :=
  let rows := sortJoinRows (joinRows s)
  { exportDate := exportDate
    userPhone := "972549990001"
    totalMessages := rows.length
    chats := rows.foldl addExportRow [] }

/-- Lookup of one chat name in the chats object (a JS property access;
absent keys give the empty message list). -/
def exportMessagesOf (name : String) : List (String × ExportChat) → List ExportMsg
  | [] => []
  | e :: rest => if e.1 = name then e.2.messages else exportMessagesOf name rest

theorem exportMessagesOf_addExportRow (name : String) (r : JoinRow) :
    ∀ acc : List (String × ExportChat),
      exportMessagesOf name (addExportRow acc r)
        = exportMessagesOf name acc ++
            (if r.chat_name = name then [rowToExportMsg r] else []) := by
  intro acc
  induction acc with
  | nil =>
      by_cases h : r.chat_name = name <;>
        simp [addExportRow, exportMessagesOf, h]
  | cons e rest ih =>
      by_cases he : e.1 = r.chat_name
      · by_cases hn : e.1 = name
        · have hr : r.chat_name = name := he ▸ hn
          simp [addExportRow, exportMessagesOf, he, hn, hr]
        · have hr : ¬ r.chat_name = name := fun hc => hn (he.symm ▸ hc ▸ rfl)
          simp [addExportRow, exportMessagesOf, he, hn, hr]
      · by_cases hn : e.1 = name
        · have hr : ¬ r.chat_name = name := fun hc => he (hn.trans hc.symm)
          have hr' : ¬ name = r.chat_name := fun hc => hr hc.symm
          simp [addExportRow, exportMessagesOf, he, hn, hr, hr']
        · simp [addExportRow, exportMessagesOf, he, hn, ih]

theorem exportMessagesOf_foldl (name : String) :
    ∀ (rs : List JoinRow) (acc : List (String × ExportChat)),
      exportMessagesOf name (rs.foldl addExportRow acc)
        = exportMessagesOf name acc ++
            (rs.filter (fun r => r.chat_name == name)).map rowToExportMsg := by
  intro rs
  induction rs with
  | nil => intro acc; simp
  | cons r rest ih =>
      intro acc
      rw [List.foldl_cons, ih, exportMessagesOf_addExportRow, List.append_assoc]
      by_cases h : r.chat_name = name <;> simp [h]

theorem join_filter_map_eq (s : DB) (ch : ChatRow) (hch : ch ∈ s.chats)
    (h_ids : ∀ c1 ∈ s.chats, ∀ c2 ∈ s.chats, c1.id = c2.id → c1 = c2)
    (h_names : ∀ c1 ∈ s.chats, ∀ c2 ∈ s.chats, c1.chat_name = c2.chat_name → c1 = c2)
    (h_chat_fk : ∀ ch' ∈ s.chats, ∃ c ∈ s.contacts, c.id = ch'.contact_id) :
    ∀ l : List MessageRow, (∀ m ∈ l, ∃ ch' ∈ s.chats, ch'.id = m.chat_id) →
      ((l.filterMap (joinFn s)).filter
          (fun r => r.chat_name == ch.chat_name)).map rowToExportMsg
        = (l.filter (fun m => m.chat_id == ch.id)).map msgToExportMsg := by
  intro l
  induction l with
  | nil => intro _; rfl
  | cons m rest ih =>
      intro hfk
      obtain ⟨ch', hch', hid'⟩ := hfk m (List.mem_cons_self _ _)
      have hfsome : (s.chats.find? (fun c => c.id == m.chat_id)).isSome := by
        rw [List.find?_isSome]
        exact ⟨ch', hch', by simp [hid']⟩
      obtain ⟨chf, hchf⟩ := Option.isSome_iff_exists.mp hfsome
      have hchf_mem := List.mem_of_find?_eq_some hchf
      have hchf_id : chf.id = m.chat_id := by
        have := List.find?_some hchf
        simpa using this
      have hcsome : (s.contacts.find? (fun c => c.id == chf.contact_id)).isSome := by
        obtain ⟨c, hc, hcid⟩ := h_chat_fk chf hchf_mem
        rw [List.find?_isSome]
        exact ⟨c, hc, by simp [hcid]⟩
      obtain ⟨cf, hcf⟩ := Option.isSome_iff_exists.mp hcsome
      have hjr : ∃ jr, joinFn s m = some jr := by
        unfold joinFn
        rw [hchf]
        dsimp only
        rw [hcf]
        exact ⟨_, rfl⟩
      obtain ⟨jr, hjr⟩ := hjr
      have hfacts : jr.chat_name = chf.chat_name ∧
          rowToExportMsg jr = msgToExportMsg m := by
        unfold joinFn at hjr
        rw [hchf] at hjr
        dsimp only at hjr
        rw [hcf] at hjr
        have hinj := Option.some.inj hjr
        rw [← hinj]
        exact ⟨rfl, rfl⟩
      have hrest := ih (fun m' hm' => hfk m' (List.mem_cons_of_mem _ hm'))
      simp only [List.filterMap_cons, hjr, List.filter_cons]
      by_cases hcase : m.chat_id = ch.id
      · have hcheq : chf = ch := h_ids chf hchf_mem ch hch (by rw [hchf_id, hcase])
        have hname : jr.chat_name = ch.chat_name := by rw [hfacts.1, hcheq]
        simp only [hname, hcase, beq_self_eq_true, if_true, List.map_cons]
        rw [hfacts.2, hrest]
      · have hnames_ne : chf.chat_name ≠ ch.chat_name := by
          intro heq
          have := h_names chf hchf_mem ch hch heq
          exact hcase (by rw [← hchf_id, this])
        have hnn : ¬ jr.chat_name = ch.chat_name := by
          rw [hfacts.1]
          exact hnames_ne
        simp only [beq_iff_eq, hnn, hcase, if_false]
        exact hrest

/-- A database state with two chats sharing the display name X, each holding
one stored message.  Ids are unique and all references exist; the schema has
no uniqueness constraint on chat_name, so this state is representable. -/
def dupChatOne : ChatRow :=
  { id := 1, whatsapp_id := "wa1", contact_id := 1, chat_name := "X",
    is_group := false, unread_count := 0 }

def dupChatTwo : ChatRow :=
  { id := 2, whatsapp_id := "wa2", contact_id := 2, chat_name := "X",
    is_group := false, unread_count := 0 }

def dupMsgOne : MessageRow :=
  { id := 1, chat_id := 1, whatsapp_message_id := "w1", sender_name := "P1",
    sender_phone := none, content := "a", message_type := "text",
    timestamp := some "2025-08-01", is_outgoing := false }

def dupMsgTwo : MessageRow :=
  { id := 2, chat_id := 2, whatsapp_message_id := "w2", sender_name := "P2",
    sender_phone := none, content := "b", message_type := "text",
    timestamp := some "2025-08-02", is_outgoing := false }

def dupNameDB : DB :=
  { nextContactId := 3, nextChatId := 3, nextMessageId := 3
    contacts := [{ id := 1, phone := "p1", name := "P1" },
      { id := 2, phone := "p2", name := "P2" }]
    chats := [dupChatOne, dupChatTwo]
    messages := [dupMsgOne, dupMsgTwo] }

/-- C5 counterexample: the claim quantifies over every database state, but on
the state with two chats named X the export keys the mapping by chat name
alone, so the list under X holds the messages of both chats and is not
exactly the stored messages of either chat. -/
theorem exportToJSON_merges_equal_names :
    ¬ ∀ ch ∈ dupNameDB.chats,
        exportMessagesOf ch.chat_name (exportToJSON "2025-09-21" dupNameDB).chats
          = (dupNameDB.messages.filter (fun m => m.chat_id == ch.id)).map
              msgToExportMsg := by
  decide

/-- C5 amended: for a database state whose messages reference existing chats
(INSERT OR REPLACE on chats orphans the previous rows' messages, which the
inner join silently drops), whose chats reference existing contacts, whose
chat ids are unique, and whose chat names are pairwise distinct (not
guaranteed by the schema; the counterexample shows the claim fails without
it), exportToJSON carries the top-level export timestamp and the originating
user phone, and maps each chat's name to a list holding exactly that chat's
stored messages as (sender, senderPhone, content, type, timestamp,
isOutgoing) objects, ordered by ascending timestamp. -/
theorem exportToJSON_spec (exportDate : String) (s : DB)
    (h_ids : ∀ c1 ∈ s.chats, ∀ c2 ∈ s.chats, c1.id = c2.id → c1 = c2)
    (h_names : ∀ c1 ∈ s.chats, ∀ c2 ∈ s.chats, c1.chat_name = c2.chat_name → c1 = c2)
    (h_msg_fk : ∀ m ∈ s.messages, ∃ ch ∈ s.chats, ch.id = m.chat_id)
    (h_chat_fk : ∀ ch ∈ s.chats, ∃ c ∈ s.contacts, c.id = ch.contact_id) :
    (exportToJSON exportDate s).exportDate = exportDate ∧
    (exportToJSON exportDate s).userPhone = "972549990001" ∧
    (exportToJSON exportDate s).totalMessages = (joinRows s).length ∧
    ∀ ch ∈ s.chats,
      (exportMessagesOf ch.chat_name (exportToJSON exportDate s).chats).Perm
          ((s.messages.filter (fun m => m.chat_id == ch.id)).map msgToExportMsg) ∧
      (exportMessagesOf ch.chat_name (exportToJSON exportDate s).chats).Pairwise
          (fun a b => tsLe a.timestamp b.timestamp = true) := by
  refine ⟨rfl, rfl, ?_, ?_⟩
  · show (sortJoinRows (joinRows s)).length = (joinRows s).length
    exact List.length_insertionSort _ _
  · intro ch hch
    have hmsgs : exportMessagesOf ch.chat_name (exportToJSON exportDate s).chats
        = ((sortJoinRows (joinRows s)).filter
            (fun r => r.chat_name == ch.chat_name)).map rowToExportMsg := by
      have h := exportMessagesOf_foldl ch.chat_name (sortJoinRows (joinRows s)) []
      simpa [exportToJSON, exportMessagesOf] using h
    have hjoin := join_filter_map_eq s ch hch h_ids h_names h_chat_fk
      s.messages h_msg_fk
    constructor
    · rw [hmsgs, ← hjoin]
      exact ((List.perm_insertionSort rowLe (joinRows s)).filter _).map _
    · rw [hmsgs]
      have hsorted : List.Pairwise rowLe (sortJoinRows (joinRows s)) :=
        List.sorted_insertionSort rowLe (joinRows s)
      have hfiltered : List.Pairwise rowLe
          ((sortJoinRows (joinRows s)).filter
            (fun r => r.chat_name == ch.chat_name)) :=
        List.Pairwise.sublist (List.filter_sublist _) hsorted
      rw [List.pairwise_map]
      refine List.Pairwise.imp_of_mem ?_ hfiltered
      intro a b ha hb hab
      have hna : a.chat_name = ch.chat_name := by
        have := (List.mem_filter.mp ha).2
        simpa using this
      have hnb : b.chat_name = ch.chat_name := by
        have := (List.mem_filter.mp hb).2
        simpa using this
      have hnab : a.chat_name = b.chat_name := hna.trans hnb.symm
      unfold rowLe rowLeB at hab
      rw [if_pos hnab] at hab
      exact hab

/-- C5 witness: the amended export theorem applied to the concrete store
obtained by saving one message of the sample chat. -/
theorem exportToJSON_spec_witness :
    (exportToJSON "2025-09-21"
        (saveChatToDatabase sampleChat [sampleMsg] 0 emptyDB)).exportDate
      = "2025-09-21" ∧
    (exportToJSON "2025-09-21"
        (saveChatToDatabase sampleChat [sampleMsg] 0 emptyDB)).userPhone
      = "972549990001" ∧
    (exportToJSON "2025-09-21"
        (saveChatToDatabase sampleChat [sampleMsg] 0 emptyDB)).totalMessages
      = (joinRows (saveChatToDatabase sampleChat [sampleMsg] 0 emptyDB)).length ∧
    ∀ ch ∈ (saveChatToDatabase sampleChat [sampleMsg] 0 emptyDB).chats,
      (exportMessagesOf ch.chat_name
          (exportToJSON "2025-09-21"
            (saveChatToDatabase sampleChat [sampleMsg] 0 emptyDB)).chats).Perm
          (((saveChatToDatabase sampleChat [sampleMsg] 0 emptyDB).messages.filter
              (fun m => m.chat_id == ch.id)).map msgToExportMsg) ∧
      (exportMessagesOf ch.chat_name
          (exportToJSON "2025-09-21"
            (saveChatToDatabase sampleChat [sampleMsg] 0 emptyDB)).chats).Pairwise
          (fun a b => tsLe a.timestamp b.timestamp = true) :=
  exportToJSON_spec "2025-09-21" (saveChatToDatabase sampleChat [sampleMsg] 0 emptyDB)
    (by decide) (by decide) (by decide) (by decide)
